import Mathlib

/-!
Verification of the box-matching and scoring engine of `evaluate_tags.py`.

The embedding translates the three layers of the script:
* `calculate_overlap` — Intersection-over-Union of two axis-aligned boxes;
* `count_correct_predictions` — per-category greedy first-fit matching;
* the aggregation and metric formulas of `main` — per-category running
  totals over a corpus of file pairs and the derived precision / recall / F1.

Numeric fields of a box are modelled as rationals; the script's float
division becomes exact rational division.
-/

namespace EvaluateTags

/-- A bounding box: four coordinates and a category tag,
mirroring the JSON records consumed by `evaluate_tags.py`. -/
structure Box where
  x1 : ℚ
  y1 : ℚ
  x2 : ℚ
  y2 : ℚ
  tag : String
deriving Repr, DecidableEq

/-- Function `calculate_overlap` from `evaluate_tags.py` (lines 6–34):
intersection rectangle via max/min, `0.0` when it is empty or inverted,
otherwise intersection area over union area, guarding a non-positive union. -/
def calculate_overlap (box1 box2 : Box) : ℚ :=
  let overlap_left := max box1.x1 box2.x1
  let overlap_top := max box1.y1 box2.y1
  let overlap_right := min box1.x2 box2.x2
  let overlap_bottom := min box1.y2 box2.y2
  if overlap_right ≤ overlap_left ∨ overlap_bottom ≤ overlap_top then 0
  else
    let overlap_area := (overlap_right - overlap_left) * (overlap_bottom - overlap_top)
    let area1 := (box1.x2 - box1.x1) * (box1.y2 - box1.y1)
    let area2 := (box2.x2 - box2.x1) * (box2.y2 - box2.y1)
    let total_area := area1 + area2 - overlap_area
    if 0 < total_area then overlap_area / total_area else 0

/-- Python's `str.lower()`, modelled as lowercasing each character of the
string (the tags in play are plain ASCII category names). -/
def strLower (s : String) : String :=
  ⟨s.data.map Char.toLower⟩

/-- The tag filter of `count_correct_predictions`:
`box['tag'].lower() == element_type.lower()`. -/
def tagMatches (box : Box) (element_type : String) : Bool :=
  strLower box.tag == strLower element_type

/-- The inner loop of `count_correct_predictions` (lines 55–65): scan the
ground-truth boxes in order from index `k`, skip indices already in `used`,
and return the first index whose overlap with `pred_box` is at least 0.5. -/
def findMatchAux : List Box → List Nat → Box → Nat → Option Nat
  | [], _, _, _ => none
  | gt_box :: rest, used, pred_box, k =>
    if k ∈ used then findMatchAux rest used pred_box (k + 1)
    else if (1 : ℚ) / 2 ≤ calculate_overlap gt_box pred_box then some k
    else findMatchAux rest used pred_box (k + 1)

/-- The outer loop of `count_correct_predictions` (lines 51–65): walk the
predicted boxes in order, maintaining the list of consumed ground-truth
indices and the running correct count. -/
def matchLoop (gt_boxes : List Box) : List Box → List Nat → Nat → Nat × List Nat
  | [], used, correct_count => (correct_count, used)
  | pred_box :: rest, used, correct_count =>
    match findMatchAux gt_boxes used pred_box 0 with
    | some i => matchLoop gt_boxes rest (used ++ [i]) (correct_count + 1)
    | none => matchLoop gt_boxes rest used correct_count

/-- Function `count_correct_predictions` from `evaluate_tags.py` (lines 36–67):
filter both sequences by tag, run the greedy first-fit matching, and
return `(len(gt_boxes), len(pred_boxes), correct_count)`. -/
def count_correct_predictions (ground_truth_boxes predicted_boxes : List Box)
    (element_type : String) : Nat × Nat × Nat :=
  let gt_boxes := ground_truth_boxes.filter (fun b => tagMatches b element_type)
  let pred_boxes := predicted_boxes.filter (fun b => tagMatches b element_type)
  let correct_count := (matchLoop gt_boxes pred_boxes [] 0).1
  (gt_boxes.length, pred_boxes.length, correct_count)

/-- The per-category running totals kept by `main` (lines 80–86). -/
structure Totals where
  ground_truth_total : Nat
  predicted_total : Nat
  correct_total : Nat
deriving Repr, DecidableEq

/-- One file pair: the ground-truth annotation set and the prediction set. -/
abbrev FilePair := List Box × List Box

/-- Folding one file's match result into the running totals
(`main`, lines 119–121). -/
def addCounts (t : Totals) (c : Nat × Nat × Nat) : Totals :=
  { ground_truth_total := t.ground_truth_total + c.1
    predicted_total := t.predicted_total + c.2.1
    correct_total := t.correct_total + c.2.2 }

/-- The aggregation loop of `main` (lines 98–121) for one category:
fold every available file pair's match result into the totals. -/
def aggregate (files : List FilePair) (element_type : String) : Totals :=
  files.foldl
    (fun t fp => addCounts t (count_correct_predictions fp.1 fp.2 element_type))
    ⟨0, 0, 0⟩

/-- Precision as computed in `main` (lines 133–136). -/
def precisionOf (t : Totals) : ℚ :=
  if 0 < t.predicted_total then (t.correct_total : ℚ) / (t.predicted_total : ℚ) else 0

/-- Recall as computed in `main` (lines 138–141). -/
def recallOf (t : Totals) : ℚ :=
  if 0 < t.ground_truth_total then (t.correct_total : ℚ) / (t.ground_truth_total : ℚ) else 0

/-- F1 as computed in `main` (lines 143–146), from precision and recall. -/
def f1Of (t : Totals) : ℚ :=
  let p := precisionOf t
  let r := recallOf t
  if 0 < p + r then 2 * p * r / (p + r) else 0

/-! ### Overlap Calculator lemmas -/

/-- Unfolding lemma for `calculate_overlap`. -/
lemma calculate_overlap_def (b1 b2 : Box) :
    calculate_overlap b1 b2 =
      if min b1.x2 b2.x2 ≤ max b1.x1 b2.x1 ∨ min b1.y2 b2.y2 ≤ max b1.y1 b2.y1 then 0
      else
        if 0 < (b1.x2 - b1.x1) * (b1.y2 - b1.y1) + (b2.x2 - b2.x1) * (b2.y2 - b2.y1) -
            (min b1.x2 b2.x2 - max b1.x1 b2.x1) * (min b1.y2 b2.y2 - max b1.y1 b2.y1) then
          (min b1.x2 b2.x2 - max b1.x1 b2.x1) * (min b1.y2 b2.y2 - max b1.y1 b2.y1) /
            ((b1.x2 - b1.x1) * (b1.y2 - b1.y1) + (b2.x2 - b2.x1) * (b2.y2 - b2.y1) -
              (min b1.x2 b2.x2 - max b1.x1 b2.x1) * (min b1.y2 b2.y2 - max b1.y1 b2.y1))
        else 0 := rfl

/-- When the intersection rectangle is strictly non-empty, the intersection
area is positive and bounded by each box's own area, and the union area is
positive and at least the intersection area. -/
lemma overlap_bounds (b1 b2 : Box)
    (hx : max b1.x1 b2.x1 < min b1.x2 b2.x2) (hy : max b1.y1 b2.y1 < min b1.y2 b2.y2) :
    0 < (min b1.x2 b2.x2 - max b1.x1 b2.x1) * (min b1.y2 b2.y2 - max b1.y1 b2.y1) ∧
    (min b1.x2 b2.x2 - max b1.x1 b2.x1) * (min b1.y2 b2.y2 - max b1.y1 b2.y1) ≤
      (b1.x2 - b1.x1) * (b1.y2 - b1.y1) ∧
    (min b1.x2 b2.x2 - max b1.x1 b2.x1) * (min b1.y2 b2.y2 - max b1.y1 b2.y1) ≤
      (b2.x2 - b2.x1) * (b2.y2 - b2.y1) := by
  set L := max b1.x1 b2.x1 with hL
  set T := max b1.y1 b2.y1 with hT
  set R := min b1.x2 b2.x2 with hR
  set B := min b1.y2 b2.y2 with hB
  have hRL : 0 < R - L := by linarith
  have hBT : 0 < B - T := by linarith
  have hov : 0 < (R - L) * (B - T) := mul_pos hRL hBT
  have h1x : R - L ≤ b1.x2 - b1.x1 := by
    have h1 : R ≤ b1.x2 := min_le_left _ _
    have h2 : b1.x1 ≤ L := le_max_left _ _
    linarith
  have h1y : B - T ≤ b1.y2 - b1.y1 := by
    have h1 : B ≤ b1.y2 := min_le_left _ _
    have h2 : b1.y1 ≤ T := le_max_left _ _
    linarith
  have h2x : R - L ≤ b2.x2 - b2.x1 := by
    have h1 : R ≤ b2.x2 := min_le_right _ _
    have h2 : b2.x1 ≤ L := le_max_right _ _
    linarith
  have h2y : B - T ≤ b2.y2 - b2.y1 := by
    have h1 : B ≤ b2.y2 := min_le_right _ _
    have h2 : b2.y1 ≤ T := le_max_right _ _
    linarith
  refine ⟨hov, ?_, ?_⟩
  · exact mul_le_mul h1x h1y hBT.le (by linarith)
  · exact mul_le_mul h2x h2y hBT.le (by linarith)

/-- When the intersection rectangle is strictly non-empty, `calculate_overlap`
takes its division branch and the result is strictly positive and at most 1. -/
lemma overlap_div_branch (b1 b2 : Box)
    (hx : max b1.x1 b2.x1 < min b1.x2 b2.x2) (hy : max b1.y1 b2.y1 < min b1.y2 b2.y2) :
    0 < calculate_overlap b1 b2 ∧ calculate_overlap b1 b2 ≤ 1 := by
  obtain ⟨hov, hle1, hle2⟩ := overlap_bounds b1 b2 hx hy
  rw [calculate_overlap_def]
  rw [if_neg (by push_neg; exact ⟨hx, hy⟩)]
  have htot : 0 < (b1.x2 - b1.x1) * (b1.y2 - b1.y1) + (b2.x2 - b2.x1) * (b2.y2 - b2.y1) -
      (min b1.x2 b2.x2 - max b1.x1 b2.x1) * (min b1.y2 b2.y2 - max b1.y1 b2.y1) := by
    linarith
  rw [if_pos htot]
  constructor
  · exact div_pos hov htot
  · rw [div_le_one htot]
    linarith

/-- C4: for any numeric coordinates, including degenerate or inverted boxes,
`calculate_overlap` returns exactly 0 whenever the intersection rectangle is
empty or inverted (`right <= left` or `bottom <= top`), and also when both
boxes degenerate to zero area (so the union would be 0); the division branch
is never reached in these cases, so no division by zero occurs. -/
theorem calculate_overlap_safe (b1 b2 : Box)
    (h : min b1.x2 b2.x2 ≤ max b1.x1 b2.x1 ∨ min b1.y2 b2.y2 ≤ max b1.y1 b2.y1 ∨
      ((b1.x2 - b1.x1) * (b1.y2 - b1.y1) = 0 ∧ (b2.x2 - b2.x1) * (b2.y2 - b2.y1) = 0)) :
    calculate_overlap b1 b2 = 0 := by
  rw [calculate_overlap_def]
  rcases h with h | h | ⟨h1, h2⟩
  · rw [if_pos (Or.inl h)]
  · rw [if_pos (Or.inr h)]
  · by_cases hc : min b1.x2 b2.x2 ≤ max b1.x1 b2.x1 ∨ min b1.y2 b2.y2 ≤ max b1.y1 b2.y1
    · rw [if_pos hc]
    · push_neg at hc
      obtain ⟨hov, hle1, _⟩ := overlap_bounds b1 b2 hc.1 hc.2
      rw [h1] at hle1
      linarith

/-- Witness for C4 at a concrete pair of degenerate zero-area boxes. -/
theorem calculate_overlap_safe_witness :
    calculate_overlap ⟨3, 3, 3, 3, "button"⟩ ⟨3, 3, 3, 3, "button"⟩ = 0 :=
  calculate_overlap_safe ⟨3, 3, 3, 3, "button"⟩ ⟨3, 3, 3, 3, "button"⟩
    (Or.inr (Or.inr (by norm_num)))

/-- C6: `calculate_overlap` is symmetric in its two box arguments. -/
theorem calculate_overlap_comm (b1 b2 : Box) :
    calculate_overlap b1 b2 = calculate_overlap b2 b1 := by
  rw [calculate_overlap_def, calculate_overlap_def]
  rw [min_comm b2.x2 b1.x2, min_comm b2.y2 b1.y2, max_comm b2.x1 b1.x1, max_comm b2.y1 b1.y1,
    add_comm ((b2.x2 - b2.x1) * (b2.y2 - b2.y1)) ((b1.x2 - b1.x1) * (b1.y2 - b1.y1))]

/-- C7: a box with positive width and height has overlap exactly 1 with
itself. -/
theorem calculate_overlap_self (b : Box) (hx : b.x1 < b.x2) (hy : b.y1 < b.y2) :
    calculate_overlap b b = 1 := by
  rw [calculate_overlap_def]
  simp only [min_self, max_self]
  rw [if_neg (by push_neg; exact ⟨hx, hy⟩)]
  have harea : 0 < (b.x2 - b.x1) * (b.y2 - b.y1) :=
    mul_pos (by linarith) (by linarith)
  rw [if_pos (by linarith)]
  have : (b.x2 - b.x1) * (b.y2 - b.y1) + (b.x2 - b.x1) * (b.y2 - b.y1) -
      (b.x2 - b.x1) * (b.y2 - b.y1) = (b.x2 - b.x1) * (b.y2 - b.y1) := by ring
  rw [this, div_self harea.ne']

/-- Witness for C7 at a concrete box of positive area. -/
theorem calculate_overlap_self_witness :
    calculate_overlap ⟨0, 0, 10, 10, "button"⟩ ⟨0, 0, 10, 10, "button"⟩ = 1 :=
  calculate_overlap_self ⟨0, 0, 10, 10, "button"⟩ (by norm_num) (by norm_num)

/-- C8: for any pair of boxes, whatever their coordinates,
`calculate_overlap` returns a value in the closed interval [0, 1]. -/
theorem calculate_overlap_mem_unit (b1 b2 : Box) :
    0 ≤ calculate_overlap b1 b2 ∧ calculate_overlap b1 b2 ≤ 1 := by
  by_cases hc : min b1.x2 b2.x2 ≤ max b1.x1 b2.x1 ∨ min b1.y2 b2.y2 ≤ max b1.y1 b2.y1
  · rw [calculate_overlap_def, if_pos hc]
    norm_num
  · push_neg at hc
    obtain ⟨h0, h1⟩ := overlap_div_branch b1 b2 hc.1 hc.2
    exact ⟨h0.le, h1⟩

/-- C10: `calculate_overlap` is strictly positive exactly when the
intersection rectangle is strictly non-empty in both axes; boxes that merely
touch along an edge or corner get overlap 0. -/
theorem calculate_overlap_pos_iff (b1 b2 : Box) :
    0 < calculate_overlap b1 b2 ↔
      max b1.x1 b2.x1 < min b1.x2 b2.x2 ∧ max b1.y1 b2.y1 < min b1.y2 b2.y2 := by
  constructor
  · intro hpos
    by_contra hc
    rw [not_and_or, not_lt, not_lt] at hc
    rw [calculate_overlap_def, if_pos hc] at hpos
    exact absurd hpos (lt_irrefl 0)
  · rintro ⟨hx, hy⟩
    exact (overlap_div_branch b1 b2 hx hy).1

/-! ### Category Matcher lemmas -/

/-- A successful inner scan returns an index that is not yet consumed, is at
least the starting offset, and addresses a box of the scanned list. -/
lemma findMatchAux_some : ∀ (l : List Box) (used : List Nat) (p : Box) (k i : Nat),
    findMatchAux l used p k = some i → i ∉ used ∧ k ≤ i ∧ i < k + l.length
  | [], _, _, _, _, h => by simp [findMatchAux] at h
  | b :: rest, used, p, k, i, h => by
    rw [findMatchAux] at h
    by_cases hk : k ∈ used
    · rw [if_pos hk] at h
      obtain ⟨h1, h2, h3⟩ := findMatchAux_some rest used p (k + 1) i h
      exact ⟨h1, by omega, by simp only [List.length_cons]; omega⟩
    · rw [if_neg hk] at h
      by_cases hov : (1 : ℚ) / 2 ≤ calculate_overlap b p
      · rw [if_pos hov] at h
        obtain rfl := Option.some_injective _ h
        exact ⟨hk, le_refl _, by simp⟩
      · rw [if_neg hov] at h
        obtain ⟨h1, h2, h3⟩ := findMatchAux_some rest used p (k + 1) i h
        exact ⟨h1, by omega, by simp only [List.length_cons]; omega⟩

/-- The running correct count never decreases along the outer loop. -/
lemma le_matchLoop (gts : List Box) :
    ∀ (l : List Box) (used : List Nat) (c : Nat), c ≤ (matchLoop gts l used c).1
  | [], _, _ => le_refl _
  | p :: rest, used, c => by
    rw [matchLoop]
    cases h : findMatchAux gts used p 0 with
    | some i => exact le_trans (Nat.le_succ c) (le_matchLoop gts rest (used ++ [i]) (c + 1))
    | none => exact le_matchLoop gts rest used c

/-- Loop invariant of the outer matching loop: the consumed-index list stays
duplicate-free and within bounds, each accepted match grows it by one, and
the correct count grows by at most one per predicted box. -/
lemma matchLoop_spec (gts : List Box) :
    ∀ (preds : List Box) (used : List Nat) (c : Nat),
      used.Nodup → (∀ i ∈ used, i < gts.length) →
      (matchLoop gts preds used c).2.Nodup ∧
      (∀ i ∈ (matchLoop gts preds used c).2, i < gts.length) ∧
      (matchLoop gts preds used c).1 + used.length = c + (matchLoop gts preds used c).2.length ∧
      (matchLoop gts preds used c).1 ≤ c + preds.length
  | [], used, c, hnd, hlt => ⟨hnd, hlt, by simp [matchLoop], by simp [matchLoop]⟩
  | p :: rest, used, c, hnd, hlt => by
    cases h : findMatchAux gts used p 0 with
    | some i =>
      have hred : matchLoop gts (p :: rest) used c =
          matchLoop gts rest (used ++ [i]) (c + 1) := by
        rw [matchLoop, h]
      rw [hred]
      obtain ⟨hi_used, _, hi_lt⟩ := findMatchAux_some gts used p 0 i h
      rw [Nat.zero_add] at hi_lt
      have hnd' : (used ++ [i]).Nodup := by
        simp [List.nodup_append, hnd, List.disjoint_singleton, hi_used]
      have hlt' : ∀ j ∈ used ++ [i], j < gts.length := by
        intro j hj
        rcases List.mem_append.1 hj with hj | hj
        · exact hlt j hj
        · rw [List.mem_singleton.1 hj]; exact hi_lt
      obtain ⟨h1, h2, h3, h4⟩ := matchLoop_spec gts rest (used ++ [i]) (c + 1) hnd' hlt'
      refine ⟨h1, h2, ?_, ?_⟩
      · simp only [List.length_append, List.length_singleton] at h3
        omega
      · simp only [List.length_cons]
        omega
    | none =>
      have hred : matchLoop gts (p :: rest) used c = matchLoop gts rest used c := by
        rw [matchLoop, h]
      rw [hred]
      obtain ⟨h1, h2, h3, h4⟩ := matchLoop_spec gts rest used c hnd hlt
      refine ⟨h1, h2, h3, ?_⟩
      simp only [List.length_cons]
      omega

/-- C3: the matching is at-most-one-to-one, so the correct count never
exceeds either the filtered ground-truth count or the filtered predicted
count. -/
theorem correct_count_le_min (ground_truth_boxes predicted_boxes : List Box)
    (element_type : String) :
    (count_correct_predictions ground_truth_boxes predicted_boxes element_type).2.2 ≤
      min (count_correct_predictions ground_truth_boxes predicted_boxes element_type).1
        (count_correct_predictions ground_truth_boxes predicted_boxes element_type).2.1 := by
  simp only [count_correct_predictions]
  set gts := ground_truth_boxes.filter (fun b => tagMatches b element_type) with hgts
  set preds := predicted_boxes.filter (fun b => tagMatches b element_type) with hpreds
  obtain ⟨hnd, hlt, hlen, hub⟩ := matchLoop_spec gts preds [] 0 List.nodup_nil (by simp)
  refine le_min ?_ (by simpa using hub)
  have h1 : (matchLoop gts preds [] 0).1 = (matchLoop gts preds [] 0).2.length := by
    simpa using hlen
  have hsub : (matchLoop gts preds [] 0).2.toFinset ⊆ Finset.range gts.length := by
    intro j hj
    exact Finset.mem_range.2 (hlt j (List.mem_toFinset.1 hj))
  have hcard := Finset.card_le_card hsub
  rw [List.toFinset_card_of_nodup hnd, Finset.card_range] at hcard
  omega

/-- Splitting the predicted sequence splits the outer loop. -/
lemma matchLoop_append (gts : List Box) :
    ∀ (l1 l2 : List Box) (used : List Nat) (c : Nat),
      matchLoop gts (l1 ++ l2) used c =
        matchLoop gts l2 (matchLoop gts l1 used c).2 (matchLoop gts l1 used c).1
  | [], l2, used, c => rfl
  | p :: rest, l2, used, c => by
    rw [List.cons_append, matchLoop, matchLoop]
    cases h : findMatchAux gts used p 0 with
    | some i => exact matchLoop_append gts rest l2 (used ++ [i]) (c + 1)
    | none => exact matchLoop_append gts rest l2 used c

/-- C9: appending one predicted box leaves the ground-truth count unchanged,
grows the predicted count by one exactly when its tag matches the category,
and never decreases the correct count. -/
theorem count_correct_append_pred (ground_truth_boxes predicted_boxes : List Box)
    (p : Box) (element_type : String) :
    (count_correct_predictions ground_truth_boxes (predicted_boxes ++ [p]) element_type).1 =
      (count_correct_predictions ground_truth_boxes predicted_boxes element_type).1 ∧
    (count_correct_predictions ground_truth_boxes (predicted_boxes ++ [p]) element_type).2.1 =
      (count_correct_predictions ground_truth_boxes predicted_boxes element_type).2.1 +
        (if tagMatches p element_type then 1 else 0) ∧
    (count_correct_predictions ground_truth_boxes predicted_boxes element_type).2.2 ≤
      (count_correct_predictions ground_truth_boxes (predicted_boxes ++ [p]) element_type).2.2 := by
  refine ⟨rfl, ?_, ?_⟩
  · show ((predicted_boxes ++ [p]).filter (fun b => tagMatches b element_type)).length =
      (predicted_boxes.filter (fun b => tagMatches b element_type)).length +
        (if tagMatches p element_type then 1 else 0)
    by_cases hp : tagMatches p element_type <;>
      simp [List.filter_append, List.filter, hp]
  · show (matchLoop (ground_truth_boxes.filter (fun b => tagMatches b element_type))
        (predicted_boxes.filter (fun b => tagMatches b element_type)) [] 0).1 ≤
      (matchLoop (ground_truth_boxes.filter (fun b => tagMatches b element_type))
        ((predicted_boxes ++ [p]).filter (fun b => tagMatches b element_type)) [] 0).1
    rw [List.filter_append, matchLoop_append]
    by_cases hp : tagMatches p element_type
    · have hfil : List.filter (fun b => tagMatches b element_type) [p] = [p] := by
        simp [List.filter, hp]
      rw [hfil]
      exact le_matchLoop _ [p] _ _
    · have hfil : List.filter (fun b => tagMatches b element_type) [p] = [] := by
        simp [List.filter, hp]
      rw [hfil]
      exact le_refl _

/-! ### Spec-side model of the Category Matcher (spec §4.2)

These definitions transcribe the spec's wording — order-preserving
case-insensitive filter, a set of consumed ground-truth indices, and
first-fit acceptance of the first unconsumed candidate with overlap at
least 0.5 — to be compared against `count_correct_predictions`. -/

/-- Spec §4.2, filter step: keep the boxes whose tag equals the category
under case-insensitive comparison, preserving source order. -/
def specFilter (boxes : List Box) (category : String) : List Box :=
  boxes.filter (fun b => strLower b.tag == strLower category)

/-- Spec §4.2, step 4: the first ground-truth candidate, in iteration
order, that is not yet consumed and whose overlap with the predicted box is
at least 0.5. -/
def specFirstFit (gts : List Box) (used : Finset Nat) (pred : Box) : Option Nat :=
  (gts.enum.find? (fun e =>
    decide (e.1 ∉ used) && decide ((1 : ℚ) / 2 ≤ calculate_overlap e.2 pred))).map Prod.fst

/-- Spec §4.2, steps 5–6: on acceptance consume the index and bump the
count; otherwise the predicted box contributes nothing. -/
def specStep (gts : List Box) (st : Finset Nat × Nat) (pred : Box) : Finset Nat × Nat :=
  match specFirstFit gts st.1 pred with
  | some i => (insert i st.1, st.2 + 1)
  | none => st

/-- Spec §4.2: the whole Category Matcher contract —
`(gtCount, predCount, correctCount)` via greedy first-fit matching. -/
def specMatch (groundTruthBoxes predictedBoxes : List Box) (category : String) :
    Nat × Nat × Nat :=
  let gts := specFilter groundTruthBoxes category
  let preds := specFilter predictedBoxes category
  (gts.length, preds.length, (preds.foldl (specStep gts) (∅, 0)).2)

/-- The inner scan agrees with the spec's first-fit search over the
enumerated ground-truth list, for any starting offset and any consumed-set
representation that agrees with the consumed list. -/
lemma findMatchAux_eq_find? :
    ∀ (l : List Box) (k : Nat) (used : List Nat) (S : Finset Nat),
      (∀ i, i ∈ used ↔ i ∈ S) → ∀ p,
      findMatchAux l used p k =
        ((l.enumFrom k).find? (fun e =>
          decide (e.1 ∉ S) && decide ((1 : ℚ) / 2 ≤ calculate_overlap e.2 p))).map Prod.fst
  | [], _, _, _, _, _ => rfl
  | b :: rest, k, used, S, hm, p => by
    rw [findMatchAux, List.enumFrom_cons]
    by_cases hk : k ∈ used
    · have hkS : k ∈ S := (hm k).1 hk
      rw [if_pos hk, List.find?_cons_of_neg _ (by simp [hkS])]
      exact findMatchAux_eq_find? rest (k + 1) used S hm p
    · have hkS : k ∉ S := fun h => hk ((hm k).2 h)
      rw [if_neg hk]
      by_cases hov : (1 : ℚ) / 2 ≤ calculate_overlap b p
      · rw [if_pos hov, List.find?_cons_of_pos _ (by
          simp only [Bool.and_eq_true, decide_eq_true_eq]
          exact ⟨hkS, hov⟩)]
        rfl
      · rw [if_neg hov, List.find?_cons_of_neg _ (by
          simp only [Bool.and_eq_true, decide_eq_true_eq, not_and]
          exact fun _ => hov)]
        exact findMatchAux_eq_find? rest (k + 1) used S hm p

/-- The outer loop agrees with the spec's fold over predicted boxes. -/
lemma matchLoop_eq_foldl (gts : List Box) :
    ∀ (preds : List Box) (used : List Nat) (S : Finset Nat) (c : Nat),
      (∀ i, i ∈ used ↔ i ∈ S) →
      (matchLoop gts preds used c).1 = (preds.foldl (specStep gts) (S, c)).2
  | [], used, S, c, hm => rfl
  | p :: rest, used, S, c, hm => by
    have hfind : findMatchAux gts used p 0 = specFirstFit gts S p := by
      rw [specFirstFit, List.enum]
      exact findMatchAux_eq_find? gts 0 used S hm p
    rw [List.foldl_cons]
    cases h : findMatchAux gts used p 0 with
    | some i =>
      have hred : matchLoop gts (p :: rest) used c =
          matchLoop gts rest (used ++ [i]) (c + 1) := by
        rw [matchLoop, h]
      have hstep : specStep gts (S, c) p = (insert i S, c + 1) := by
        rw [specStep]
        simp only [← hfind, h]
      rw [hred, hstep]
      refine matchLoop_eq_foldl gts rest (used ++ [i]) (insert i S) (c + 1) ?_
      intro j
      simp only [List.mem_append, List.mem_singleton, Finset.mem_insert, hm j]
      tauto
    | none =>
      have hred : matchLoop gts (p :: rest) used c = matchLoop gts rest used c := by
        rw [matchLoop, h]
      have hstep : specStep gts (S, c) p = (S, c) := by
        rw [specStep]
        simp only [← hfind, h]
      rw [hred, hstep]
      exact matchLoop_eq_foldl gts rest used S c hm

/-- C1: the Category Matcher of the code returns exactly the triple the
spec describes — filtered ground-truth length, filtered prediction length,
and the correct count of the greedy first-fit matching. -/
theorem count_correct_predictions_eq_spec (ground_truth_boxes predicted_boxes : List Box)
    (element_type : String) :
    count_correct_predictions ground_truth_boxes predicted_boxes element_type =
      specMatch ground_truth_boxes predicted_boxes element_type := by
  have hfil : ∀ l : List Box,
      l.filter (fun b => tagMatches b element_type) = specFilter l element_type := fun l => rfl
  simp only [count_correct_predictions, specMatch, hfil]
  refine Prod.ext rfl (Prod.ext rfl ?_)
  exact matchLoop_eq_foldl _ _ [] ∅ 0 (by simp)

/-! ### Corpus Aggregator lemmas -/

/-- The aggregation fold is the componentwise sum of the per-file match
results, on top of the starting totals. -/
lemma foldl_addCounts (element_type : String) :
    ∀ (files : List FilePair) (t : Totals),
      files.foldl
        (fun t fp => addCounts t (count_correct_predictions fp.1 fp.2 element_type)) t =
      ⟨t.ground_truth_total +
          (files.map fun fp => (count_correct_predictions fp.1 fp.2 element_type).1).sum,
        t.predicted_total +
          (files.map fun fp => (count_correct_predictions fp.1 fp.2 element_type).2.1).sum,
        t.correct_total +
          (files.map fun fp => (count_correct_predictions fp.1 fp.2 element_type).2.2).sum⟩
  | [], t => by cases t; simp
  | fp :: rest, t => by
    rw [List.foldl_cons, foldl_addCounts element_type rest]
    cases t
    simp only [addCounts, List.map_cons, List.sum_cons, Totals.mk.injEq]
    omega

/-- C5: the final per-category totals do not depend on the order in which
the file pairs are folded in — any permutation of the corpus yields the
same aggregate. -/
theorem aggregate_perm_invariant (files files' : List FilePair) (element_type : String)
    (h : files.Perm files') :
    aggregate files element_type = aggregate files' element_type := by
  rw [aggregate, aggregate, foldl_addCounts, foldl_addCounts]
  have h1 := (h.map fun fp => (count_correct_predictions fp.1 fp.2 element_type).1).sum_eq
  have h2 := (h.map fun fp => (count_correct_predictions fp.1 fp.2 element_type).2.1).sum_eq
  have h3 := (h.map fun fp => (count_correct_predictions fp.1 fp.2 element_type).2.2).sum_eq
  rw [h1, h2, h3]

/-- Witness for C5: swapping two concrete file pairs leaves the aggregate
unchanged. -/
theorem aggregate_perm_invariant_witness :
    aggregate [([⟨0, 0, 10, 10, "button"⟩], [⟨0, 0, 10, 10, "button"⟩]),
        ([⟨5, 5, 20, 20, "input"⟩], [⟨0, 0, 3, 3, "radio"⟩])] "button" =
      aggregate [([⟨5, 5, 20, 20, "input"⟩], [⟨0, 0, 3, 3, "radio"⟩]),
        ([⟨0, 0, 10, 10, "button"⟩], [⟨0, 0, 10, 10, "button"⟩])] "button" :=
  aggregate_perm_invariant _ _ "button" (List.Perm.swap _ _ _)

/-- A category that matches no tag in either sequence yields the zero match
result. -/
lemma count_correct_predictions_of_absent (ground_truth_boxes predicted_boxes : List Box)
    (element_type : String)
    (hg : ∀ b ∈ ground_truth_boxes, tagMatches b element_type = false)
    (hp : ∀ b ∈ predicted_boxes, tagMatches b element_type = false) :
    count_correct_predictions ground_truth_boxes predicted_boxes element_type = (0, 0, 0) := by
  have h1 : ground_truth_boxes.filter (fun b => tagMatches b element_type) = [] :=
    List.filter_eq_nil_iff.2 (by intro b hb; simp [hg b hb])
  have h2 : predicted_boxes.filter (fun b => tagMatches b element_type) = [] :=
    List.filter_eq_nil_iff.2 (by intro b hb; simp [hp b hb])
  simp only [count_correct_predictions, h1, h2]
  rfl

/-- C2: the derived metrics come from the final integer totals by the
guarded formulas of `main`; in particular a category absent from both sides
of every file has all three totals equal to 0 and precision, recall and F1
all equal to 0 — no division by zero takes place. -/
theorem metrics_of_absent_category (files : List FilePair) (element_type : String)
    (habs : ∀ fp ∈ files, ∀ b ∈ fp.1 ++ fp.2, tagMatches b element_type = false) :
    aggregate files element_type = ⟨0, 0, 0⟩ ∧
    precisionOf (aggregate files element_type) = 0 ∧
    recallOf (aggregate files element_type) = 0 ∧
    f1Of (aggregate files element_type) = 0 := by
  have hc : ∀ fp ∈ files, count_correct_predictions fp.1 fp.2 element_type = (0, 0, 0) := by
    intro fp hfp
    exact count_correct_predictions_of_absent fp.1 fp.2 element_type
      (fun b hb => habs fp hfp b (List.mem_append.2 (Or.inl hb)))
      (fun b hb => habs fp hfp b (List.mem_append.2 (Or.inr hb)))
  have hagg : aggregate files element_type = ⟨0, 0, 0⟩ := by
    rw [aggregate, foldl_addCounts]
    have h1 : (files.map fun fp => (count_correct_predictions fp.1 fp.2 element_type).1).sum
        = 0 := by
      refine List.sum_eq_zero ?_
      intro x hx
      obtain ⟨fp, hfp, rfl⟩ := List.mem_map.1 hx
      rw [hc fp hfp]
    have h2 : (files.map fun fp => (count_correct_predictions fp.1 fp.2 element_type).2.1).sum
        = 0 := by
      refine List.sum_eq_zero ?_
      intro x hx
      obtain ⟨fp, hfp, rfl⟩ := List.mem_map.1 hx
      rw [hc fp hfp]
    have h3 : (files.map fun fp => (count_correct_predictions fp.1 fp.2 element_type).2.2).sum
        = 0 := by
      refine List.sum_eq_zero ?_
      intro x hx
      obtain ⟨fp, hfp, rfl⟩ := List.mem_map.1 hx
      rw [hc fp hfp]
    rw [h1, h2, h3]
  refine ⟨hagg, ?_, ?_, ?_⟩ <;> rw [hagg]
  · norm_num [precisionOf]
  · norm_num [recallOf]
  · norm_num [f1Of, precisionOf, recallOf]

/-- Witness for C2: a concrete corpus whose only file mentions only button
and input boxes, evaluated for the absent category "radio". -/
theorem metrics_of_absent_category_witness :
    aggregate [([⟨0, 0, 10, 10, "button"⟩], [⟨2, 2, 8, 8, "Input"⟩])] "radio" = ⟨0, 0, 0⟩ ∧
    precisionOf (aggregate [([⟨0, 0, 10, 10, "button"⟩], [⟨2, 2, 8, 8, "Input"⟩])] "radio") = 0 ∧
    recallOf (aggregate [([⟨0, 0, 10, 10, "button"⟩], [⟨2, 2, 8, 8, "Input"⟩])] "radio") = 0 ∧
    f1Of (aggregate [([⟨0, 0, 10, 10, "button"⟩], [⟨2, 2, 8, 8, "Input"⟩])] "radio") = 0 :=
  metrics_of_absent_category _ "radio" (by decide)

end EvaluateTags
